import Mathlib

/-!
A shallow embedding of the `stats` Go package (file `stats.go`): a request
metrics recorder keeping per-interval and cumulative response counts keyed by
the decimal rendering of the HTTP status code, plus an accumulated response
duration, and a snapshot producer.

Modelling conventions:
* `time.Time` and `time.Duration` values are integers counting nanoseconds
  (`time.Duration` is an `int64` nanosecond count in Go; `time.Time` arithmetic
  used here only ever adds durations to the zero time or subtracts times).
* Go `map[string]int` is an association list `List (String × Int)` whose keys
  are pairwise distinct in every state the code can reach; a read of an absent
  key yields the zero value `0`, as in Go.
* Mutating methods take the receiver and return the updated receiver; the
  current wall-clock time is passed explicitly wherever the Go code calls
  `time.Now()`.
* String- and float-rendering fields of the snapshot (`uptime`, `time`,
  `*_sec`) are not modelled; the nanosecond integers they render are.
-/

namespace GoStats

/-- The character for one decimal digit `d < 10` (code point `48 + d`). -/
def digitChar (d : Nat) : Char := Char.ofNat (48 + d)

/-- Digit-extraction loop with explicit fuel so that it is structurally
recursive; the fuel never runs out when `n ≤ fuel`. -/
def natDigitsGo : Nat → Nat → List Nat
  | 0, n => [n % 10]
  | fuel + 1, n => if n < 10 then [n] else n % 10 :: natDigitsGo fuel (n / 10)

/-- Little-endian decimal digits of `n`; `natDigits 0 = [0]`. -/
def natDigits (n : Nat) : List Nat := natDigitsGo n n

/-- Decimal string of a natural number: digits most-significant first. -/
def natDecStr (n : Nat) : String := String.mk ((natDigits n).reverse.map digitChar)

/-- Embeds `fmt.Sprintf("%d", status)`: the base-10 decimal string rendering of
a Go `int`, with a leading minus sign for negative values. -/
def intKey : Int → String
  | Int.ofNat n => natDecStr n
  | Int.negSucc n => String.mk ('-' :: (natDigits (n + 1)).reverse.map digitChar)

/-- Go map read `m[key]`: the stored value, or the zero value `0` if absent. -/
def lookup : List (String × Int) → String → Int
  | [], _ => 0
  | (k, v) :: rest, key => if k = key then v else lookup rest key

/-- Go `m[key]++`: increments the entry in place, implicitly creating it at the
zero value `0` first when absent. -/
def incr : List (String × Int) → String → List (String × Int)
  | [], key => [(key, 1)]
  | (k, v) :: rest, key =>
    if k = key then (k, v + 1) :: rest else (k, v) :: incr rest key

/-- Go map assignment `m[key] = v`. -/
def setVal : List (String × Int) → String → Int → List (String × Int)
  | [], key, v => [(key, v)]
  | (k, w) :: rest, key, v =>
    if k = key then (k, v) :: rest else (k, w) :: setVal rest key v

/-- The keys of a counts map. -/
def keys (m : List (String × Int)) : List String := m.map Prod.fst

/-- Sum of all stored values of a counts map. -/
def sumVals (m : List (String × Int)) : Int := (m.map Prod.snd).sum

/-- The `Stats` struct of `stats.go` (the lock is not modelled: every operation
is an atomic step here, which is what the locking discipline establishes). -/
structure Stats where
  Uptime : Int
  Pid : Int
  ResponseCounts : List (String × Int)
  TotalResponseCounts : List (String × Int)
  TotalResponseTime : Int
deriving DecidableEq, Repr

/-- `New` (the state part): empty counter maps, zero accumulated duration,
construction time and process id captured from the environment. The spawned
background reset goroutine is modelled as `ResetResponseCounts` steps
interleaved by the scheduler, not as part of the state. -/
def new (now pid : Int) : Stats :=
  { Uptime := now, Pid := pid, ResponseCounts := [], TotalResponseCounts := [],
    TotalResponseTime := 0 }

/-- The part of `fasthttp.RequestCtx` this middleware touches: the response
status code. -/
structure RequestCtx where
  statusCode : Int
deriving DecidableEq, Repr

/-- `Begin`: captures the current time, sets the response status code to 200,
and returns the captured start time with the same response context; the
receiver is untouched (returned unchanged). -/
def Begin (mw : Stats) (now : Int) (ctx : RequestCtx) : Stats × Int × RequestCtx :=
  (mw, now, { ctx with statusCode := 200 })

/-- `EndWithStatus`: computes the elapsed duration `now - start`, renders the
status as its decimal string, increments both counter maps at that key and adds
the elapsed duration to `TotalResponseTime`. -/
def EndWithStatus (mw : Stats) (now start : Int) (status : Int) : Stats :=
  let responseTime := now - start
  let statusCode := intKey status
  { mw with
    ResponseCounts := incr mw.ResponseCounts statusCode,
    TotalResponseCounts := incr mw.TotalResponseCounts statusCode,
    TotalResponseTime := mw.TotalResponseTime + responseTime }

/-- `End`: closes the recorder with the status code currently stored in the
response context. -/
def End (mw : Stats) (now start : Int) (ctx : RequestCtx) : Stats :=
  EndWithStatus mw now start ctx.statusCode

/-- `ResetResponseCounts`: replaces the interval map with a fresh empty map. -/
def ResetResponseCounts (mw : Stats) : Stats :=
  { mw with ResponseCounts := [] }

/-- The copy-and-sum loop of `Data` over one counts map: writes every entry
into a fresh map and accumulates the running sum of the values. -/
def copyAndSum (m : List (String × Int)) : List (String × Int) × Int :=
  m.foldl (fun acc kv => (setVal acc.1 kv.1 kv.2, acc.2 + kv.2)) ([], 0)

/-- The `Data` snapshot struct (nanosecond integers; the derived string and
float renderings are not modelled). -/
structure Data where
  Pid : Int
  UpTime : Int
  StatusCodeCount : List (String × Int)
  TotalStatusCodeCount : List (String × Int)
  Count : Int
  TotalCount : Int
  TotalResponseTime : Int
  AverageResponseTime : Int
deriving DecidableEq, Repr

/-- The `Data` method: copies both counter maps into fresh maps while summing
their values, recovers the accumulated duration as `TotalResponseTime` minus
the zero time, and computes the average by `int64` division (truncation toward
zero) when the total count is positive, zero otherwise. The receiver is only
read; it is returned unchanged as the first component. -/
def data (mw : Stats) (now : Int) : Stats × Data :=
  let rc := copyAndSum mw.ResponseCounts
  let trc := copyAndSum mw.TotalResponseCounts
  let uptime := now - mw.Uptime
  let totalResponseTime := mw.TotalResponseTime - 0
  let averageResponseTime :=
    if trc.2 > 0 then Int.tdiv totalResponseTime trc.2 else 0
  (mw,
   { Pid := mw.Pid
     UpTime := uptime
     StatusCodeCount := rc.1
     TotalStatusCodeCount := trc.1
     Count := rc.2
     TotalCount := trc.2
     TotalResponseTime := totalResponseTime
     AverageResponseTime := averageResponseTime })

example : intKey 200 = "200" := by decide
example : intKey 0 = "0" := by decide
example : intKey (-42) = "-42" := by decide
example : lookup (incr (incr [] "200") "200") "200" = 2 := by decide

/-- A request completion as seen by the middleware: the wall-clock time at the
`End` call, the start time handed over from `Begin`, the final status, and
whether it is reported through `End` (reading the status from the context) or
through `EndWithStatus` (passing it explicitly). -/
structure Req where
  now : Int
  start : Int
  status : Int
  viaEnd : Bool
deriving DecidableEq, Repr

/-- Apply one request completion to the recorder. -/
def applyReq (s : Stats) (r : Req) : Stats :=
  if r.viaEnd then End s r.now r.start { statusCode := r.status }
  else EndWithStatus s r.now r.start r.status

/-- Apply a sequence of request completions, oldest first. -/
def runReqs (s : Stats) (reqs : List Req) : Stats := reqs.foldl applyReq s

/-- A state-mutating step of the system: a request completion, or one tick of
the background reset goroutine. -/
inductive Op where
  | req (r : Req)
  | reset
deriving DecidableEq, Repr

/-- Apply one step to the recorder. -/
def applyOp (s : Stats) : Op → Stats
  | .req r => applyReq s r
  | .reset => ResetResponseCounts s

/-- Apply a sequence of steps, oldest first. -/
def runOps (s : Stats) (ops : List Op) : Stats := ops.foldl applyOp s

/-- The elapsed duration an op adds to `TotalResponseTime`. -/
def elapsed : Op → Int
  | .req r => r.now - r.start
  | .reset => 0

/-! ### Decimal rendering: round trip and injectivity -/

/-- Value of a little-endian digit list. -/
def digitsVal : List Nat → Nat
  | [] => 0
  | d :: ds => d + 10 * digitsVal ds

theorem natDigitsGo_val (fuel : Nat) :
    ∀ n, n ≤ fuel → digitsVal (natDigitsGo fuel n) = n := by
  induction fuel with
  | zero =>
    intro n hn
    have hn0 : n = 0 := Nat.le_zero.mp hn
    subst hn0; rfl
  | succ fuel ih =>
    intro n hn
    by_cases h : n < 10
    · simp [natDigitsGo, h, digitsVal]
    · have hpos : 0 < n := by omega
      have hlt : n / 10 < n := Nat.div_lt_self hpos (by omega)
      have hfuel : n / 10 ≤ fuel := by omega
      simp only [natDigitsGo, if_neg h, digitsVal, ih _ hfuel]
      omega

theorem digitsVal_natDigits (n : Nat) : digitsVal (natDigits n) = n :=
  natDigitsGo_val n n (Nat.le_refl n)

theorem natDigitsGo_lt (fuel : Nat) :
    ∀ n, ∀ d ∈ natDigitsGo fuel n, d < 10 := by
  induction fuel with
  | zero =>
    intro n d hd
    simp only [natDigitsGo, List.mem_singleton] at hd
    subst hd; exact Nat.mod_lt n (by omega)
  | succ fuel ih =>
    intro n d hd
    by_cases h : n < 10
    · simp only [natDigitsGo, if_pos h, List.mem_singleton] at hd
      subst hd; exact h
    · simp only [natDigitsGo, if_neg h, List.mem_cons] at hd
      rcases hd with hd | hd
      · subst hd; exact Nat.mod_lt n (by omega)
      · exact ih _ d hd

theorem natDigits_lt (n : Nat) : ∀ d ∈ natDigits n, d < 10 :=
  natDigitsGo_lt n n

theorem digitChar_toNat : ∀ d, d < 10 → (digitChar d).toNat = 48 + d := by decide

theorem digitChar_ne_dash : ∀ d, d < 10 → digitChar d ≠ '-' := by decide

theorem map_digitChar_inj :
    ∀ l₁ l₂ : List Nat, (∀ d ∈ l₁, d < 10) → (∀ d ∈ l₂, d < 10) →
      l₁.map digitChar = l₂.map digitChar → l₁ = l₂ := by
  intro l₁
  induction l₁ with
  | nil =>
    intro l₂ _ _ h
    cases l₂ with
    | nil => rfl
    | cons b bs => simp at h
  | cons a as ih =>
    intro l₂ h₁ h₂ h
    cases l₂ with
    | nil => simp at h
    | cons b bs =>
      simp only [List.map_cons, List.cons.injEq] at h
      have ha : a < 10 := h₁ a (List.mem_cons_self a as)
      have hb : b < 10 := h₂ b (List.mem_cons_self b bs)
      have hab : a = b := by
        have := congrArg Char.toNat h.1
        rw [digitChar_toNat a ha, digitChar_toNat b hb] at this
        omega
      have htail : as = bs :=
        ih bs (fun d hd => h₁ d (List.mem_cons_of_mem a hd))
          (fun d hd => h₂ d (List.mem_cons_of_mem b hd)) h.2
      rw [hab, htail]

theorem natDigits_inj {m n : Nat} (h : natDigits m = natDigits n) : m = n := by
  have := congrArg digitsVal h
  rwa [digitsVal_natDigits, digitsVal_natDigits] at this

theorem natDecStr_inj {m n : Nat} (h : natDecStr m = natDecStr n) : m = n := by
  have hdata := congrArg String.data h
  simp only [natDecStr] at hdata
  have hrev := map_digitChar_inj _ _
    (fun d hd => natDigits_lt m d (List.mem_reverse.mp hd))
    (fun d hd => natDigits_lt n d (List.mem_reverse.mp hd)) hdata
  exact natDigits_inj (List.reverse_injective hrev)

theorem natDigits_ne_nil (n : Nat) : natDigits n ≠ [] := by
  unfold natDigits
  cases n with
  | zero => simp [natDigitsGo]
  | succ k =>
    simp only [natDigitsGo]
    split <;> simp

theorem natDecStr_head_digit (n : Nat) :
    ∃ d l, d < 10 ∧ (natDigits n).reverse.map digitChar = digitChar d :: l := by
  rcases List.exists_cons_of_ne_nil
      (fun h => natDigits_ne_nil n (List.reverse_eq_nil_iff.mp h) :
        (natDigits n).reverse ≠ []) with ⟨d, l, hl⟩
  refine ⟨d, l.map digitChar, ?_, by rw [hl]; rfl⟩
  exact natDigits_lt n d (List.mem_reverse.mp (hl ▸ List.mem_cons_self d l))

theorem intKey_inj : Function.Injective intKey := by
  intro i j h
  cases i with
  | ofNat m =>
    cases j with
    | ofNat n =>
      exact congrArg Int.ofNat (natDecStr_inj h)
    | negSucc n =>
      exfalso
      have hdata := congrArg String.data h
      simp only [intKey, natDecStr] at hdata
      rcases natDecStr_head_digit m with ⟨d, l, hd, hcons⟩
      rw [hcons] at hdata
      exact digitChar_ne_dash d hd (List.cons.injEq _ _ _ _ ▸ hdata).1
  | negSucc m =>
    cases j with
    | ofNat n =>
      exfalso
      have hdata := congrArg String.data h
      simp only [intKey, natDecStr] at hdata
      rcases natDecStr_head_digit n with ⟨d, l, hd, hcons⟩
      rw [hcons] at hdata
      exact digitChar_ne_dash d hd (List.cons.injEq _ _ _ _ ▸ hdata).1.symm
    | negSucc n =>
      have hdata := congrArg String.data h
      simp only [intKey] at hdata
      have htail := (List.cons.injEq _ _ _ _ ▸ hdata).2
      have hrev := map_digitChar_inj _ _
        (fun d hd => natDigits_lt (m + 1) d (List.mem_reverse.mp hd))
        (fun d hd => natDigits_lt (n + 1) d (List.mem_reverse.mp hd)) htail
      have hmn : m = n := by
        have := natDigits_inj (List.reverse_injective hrev)
        omega
      rw [hmn]

/-! ### Association-list map lemmas -/

theorem lookup_nil (q : String) : lookup [] q = 0 := rfl

theorem sumVals_cons (k : String) (v : Int) (rest : List (String × Int)) :
    sumVals ((k, v) :: rest) = v + sumVals rest := by
  simp [sumVals]

theorem lookup_cons (k : String) (v : Int) (rest : List (String × Int))
    (q : String) : lookup ((k, v) :: rest) q = if k = q then v else lookup rest q := rfl

theorem incr_cons (k : String) (v : Int) (rest : List (String × Int))
    (key : String) :
    incr ((k, v) :: rest) key =
      if k = key then (k, v + 1) :: rest else (k, v) :: incr rest key := rfl

theorem lookup_incr (m : List (String × Int)) (key q : String) :
    lookup (incr m key) q = lookup m q + (if key = q then 1 else 0) := by
  induction m with
  | nil =>
    rw [show incr [] key = [(key, 1)] from rfl, lookup_cons, lookup_nil]
    omega
  | cons kv rest ih =>
    obtain ⟨k, v⟩ := kv
    rw [incr_cons]
    by_cases hk : k = key
    · rw [if_pos hk, lookup_cons, lookup_cons]
      by_cases hq : k = q
      · rw [if_pos hq, if_pos hq, if_pos (hk ▸ hq : key = q)]
      · rw [if_neg hq, if_neg hq, if_neg (fun hkq : key = q => hq (hk.trans hkq))]
        omega
    · rw [if_neg hk, lookup_cons, lookup_cons]
      by_cases hq : k = q
      · rw [if_pos hq, if_pos hq,
          if_neg (fun hkq : key = q => hk (hq.trans hkq.symm))]
        omega
      · rw [if_neg hq, if_neg hq, ih]

theorem sumVals_incr (m : List (String × Int)) (key : String) :
    sumVals (incr m key) = sumVals m + 1 := by
  induction m with
  | nil => simp [incr, sumVals]
  | cons kv rest ih =>
    obtain ⟨k, v⟩ := kv
    simp only [incr]
    split_ifs with hk
    · rw [sumVals_cons, sumVals_cons]; omega
    · rw [sumVals_cons, sumVals_cons, ih]; omega

theorem keys_cons (k : String) (v : Int) (rest : List (String × Int)) :
    keys ((k, v) :: rest) = k :: keys rest := rfl

theorem keys_incr (m : List (String × Int)) (key : String) :
    keys (incr m key) = if key ∈ keys m then keys m else keys m ++ [key] := by
  induction m with
  | nil => simp [incr, keys]
  | cons kv rest ih =>
    obtain ⟨k, v⟩ := kv
    rw [incr_cons]
    by_cases hk : k = key
    · rw [if_pos hk, keys_cons, keys_cons,
        if_pos (show key ∈ k :: keys rest by
          rw [← hk]; exact List.mem_cons_self k (keys rest))]
    · rw [if_neg hk, keys_cons, keys_cons, ih]
      have hne : key ≠ k := fun he => hk he.symm
      by_cases hmem : key ∈ keys rest
      · rw [if_pos hmem, if_pos (List.mem_cons_of_mem k hmem)]
      · rw [if_neg hmem, if_neg (by simp [hne, hmem]), List.cons_append]

theorem keysNodup_incr {m : List (String × Int)} (h : (keys m).Nodup)
    (key : String) : (keys (incr m key)).Nodup := by
  rw [keys_incr]
  split_ifs with hmem
  · exact h
  · simp [List.nodup_append, h, hmem]

theorem setVal_not_mem (a : List (String × Int)) (k : String) (v : Int)
    (h : k ∉ keys a) : setVal a k v = a ++ [(k, v)] := by
  induction a with
  | nil => rfl
  | cons kv rest ih =>
    obtain ⟨k', v'⟩ := kv
    rw [keys_cons, List.mem_cons] at h
    push_neg at h
    simp only [setVal, if_neg (fun he : k' = k => h.1 he.symm), List.cons_append,
      List.cons.injEq, true_and]
    exact ih h.2

theorem copy_fold_eq (m : List (String × Int)) :
    ∀ a : List (String × Int), (keys m).Nodup → (∀ k ∈ keys m, k ∉ keys a) →
      m.foldl (fun acc kv => setVal acc kv.1 kv.2) a = a ++ m := by
  induction m with
  | nil => intro a _ _; simp
  | cons kv rest ih =>
    obtain ⟨k, v⟩ := kv
    intro a hnd hdisj
    have hk : k ∉ keys a := hdisj k (by rw [keys_cons]; exact List.mem_cons_self _ _)
    have hndk : k ∉ keys rest := by
      rw [keys_cons] at hnd; exact (List.nodup_cons.mp hnd).1
    have hnd' : (keys rest).Nodup := by
      rw [keys_cons] at hnd; exact (List.nodup_cons.mp hnd).2
    have hdisj' : ∀ q ∈ keys rest, q ∉ keys (a ++ [(k, v)]) := by
      intro q hq
      have hqa : q ∉ keys a := hdisj q (by rw [keys_cons]; exact List.mem_cons_of_mem _ hq)
      have hqk : q ≠ k := fun he => hndk (he ▸ hq)
      have hkeys : keys (a ++ [(k, v)]) = keys a ++ [k] := by simp [keys]
      rw [hkeys, List.mem_append, List.mem_singleton]
      push_neg
      exact ⟨hqa, hqk⟩
    calc ((k, v) :: rest).foldl (fun acc kv => setVal acc kv.1 kv.2) a
        = rest.foldl (fun acc kv => setVal acc kv.1 kv.2) (setVal a k v) := by
          rw [List.foldl_cons]
      _ = rest.foldl (fun acc kv => setVal acc kv.1 kv.2) (a ++ [(k, v)]) := by
          rw [setVal_not_mem a k v hk]
      _ = (a ++ [(k, v)]) ++ rest := ih (a ++ [(k, v)]) hnd' hdisj'
      _ = a ++ (k, v) :: rest := by simp

theorem copyAndSum_fold (m : List (String × Int)) :
    ∀ (a : List (String × Int)) (b : Int),
      m.foldl (fun acc kv => (setVal acc.1 kv.1 kv.2, acc.2 + kv.2)) (a, b) =
        (m.foldl (fun acc kv => setVal acc kv.1 kv.2) a, b + sumVals m) := by
  induction m with
  | nil => intro a b; simp [sumVals]
  | cons kv rest ih =>
    obtain ⟨k, v⟩ := kv
    intro a b
    rw [List.foldl_cons, List.foldl_cons, ih, sumVals_cons]
    rw [Prod.mk.injEq]
    exact ⟨rfl, by omega⟩

/-- On a map with pairwise-distinct keys, the copy-and-sum loop of `Data`
reproduces the map entry for entry and returns the sum of its values. -/
theorem copyAndSum_eq (m : List (String × Int)) (h : (keys m).Nodup) :
    copyAndSum m = (m, sumVals m) := by
  unfold copyAndSum
  rw [copyAndSum_fold, copy_fold_eq m [] h (by simp [keys])]
  rw [List.nil_append, Prod.mk.injEq]
  exact ⟨rfl, by omega⟩

theorem copyAndSum_snd (m : List (String × Int)) :
    (copyAndSum m).2 = sumVals m := by
  unfold copyAndSum
  rw [copyAndSum_fold]
  show 0 + sumVals m = sumVals m
  omega

/-! ### Single-step and run lemmas -/

theorem applyReq_eq (s : Stats) (r : Req) :
    applyReq s r = EndWithStatus s r.now r.start r.status := by
  unfold applyReq
  cases hb : r.viaEnd
  · rw [if_neg (by simp [hb])]
  · rw [if_pos (by simp [hb])]; rfl

/-- Number of requests in the list whose status renders to the given key. -/
def countKey : List Req → String → Int
  | [], _ => 0
  | r :: rest, q => (if intKey r.status = q then 1 else 0) + countKey rest q

theorem countKey_intKey (reqs : List Req) (c : Int) :
    countKey reqs (intKey c) = ((reqs.map Req.status).count c : Int) := by
  induction reqs with
  | nil => rfl
  | cons r rest ih =>
    show (if intKey r.status = intKey c then 1 else 0) + countKey rest (intKey c) = _
    rw [List.map_cons, List.count_cons, ih]
    by_cases h : r.status = c
    · rw [if_pos (by rw [h]), if_pos (by simp [h])]
      push_cast
      omega
    · rw [if_neg (fun he => h (intKey_inj he)), if_neg (by simp [h])]
      push_cast
      omega

theorem runReqs_total_lookup (reqs : List Req) :
    ∀ (s : Stats) (q : String),
      lookup (runReqs s reqs).TotalResponseCounts q =
        lookup s.TotalResponseCounts q + countKey reqs q := by
  induction reqs with
  | nil =>
    intro s q
    show lookup s.TotalResponseCounts q = lookup s.TotalResponseCounts q + 0
    omega
  | cons r rest ih =>
    intro s q
    rw [show runReqs s (r :: rest) = runReqs (applyReq s r) rest from rfl, ih,
      applyReq_eq]
    rw [show (EndWithStatus s r.now r.start r.status).TotalResponseCounts =
        incr s.TotalResponseCounts (intKey r.status) from rfl, lookup_incr]
    show _ = _ + ((if intKey r.status = q then 1 else 0) + countKey rest q)
    omega

theorem runReqs_total_sum (reqs : List Req) :
    ∀ s : Stats, sumVals (runReqs s reqs).TotalResponseCounts =
      sumVals s.TotalResponseCounts + (reqs.length : Int) := by
  induction reqs with
  | nil =>
    intro s
    show sumVals s.TotalResponseCounts =
      sumVals s.TotalResponseCounts + ((0 : Nat) : Int)
    push_cast
    omega
  | cons r rest ih =>
    intro s
    rw [show runReqs s (r :: rest) = runReqs (applyReq s r) rest from rfl, ih,
      applyReq_eq]
    rw [show (EndWithStatus s r.now r.start r.status).TotalResponseCounts =
        incr s.TotalResponseCounts (intKey r.status) from rfl, sumVals_incr,
      List.length_cons]
    push_cast
    omega

theorem runReqs_total_nodup (reqs : List Req) :
    ∀ s : Stats, (keys s.TotalResponseCounts).Nodup →
      (keys (runReqs s reqs).TotalResponseCounts).Nodup := by
  induction reqs with
  | nil => intro s h; exact h
  | cons r rest ih =>
    intro s h
    refine ih _ ?_
    rw [applyReq_eq]
    exact keysNodup_incr h (intKey r.status)

/-- Total of the elapsed durations contributed by a list of steps. -/
def sumElapsed (ops : List Op) : Int := (ops.map elapsed).sum

theorem runOps_time (ops : List Op) :
    ∀ s : Stats, (runOps s ops).TotalResponseTime =
      s.TotalResponseTime + sumElapsed ops := by
  induction ops with
  | nil => intro s; show s.TotalResponseTime = _; simp [sumElapsed]
  | cons op rest ih =>
    intro s
    rw [show runOps s (op :: rest) = runOps (applyOp s op) rest from rfl, ih]
    have hsum : sumElapsed (op :: rest) = elapsed op + sumElapsed rest := by
      simp [sumElapsed]
    rw [hsum]
    cases op with
    | req r =>
      rw [show applyOp s (.req r) = applyReq s r from rfl, applyReq_eq]
      show s.TotalResponseTime + (r.now - r.start) + sumElapsed rest = _
      show _ = s.TotalResponseTime + (r.now - r.start + sumElapsed rest)
      omega
    | reset =>
      show s.TotalResponseTime + sumElapsed rest = _
      show _ = s.TotalResponseTime + (0 + sumElapsed rest)
      omega

theorem runOps_inv (ops : List Op) :
    ∀ s : Stats,
      (∀ k, 0 ≤ lookup s.TotalResponseCounts k ∧
        lookup s.ResponseCounts k ≤ lookup s.TotalResponseCounts k) →
      ∀ k, 0 ≤ lookup (runOps s ops).TotalResponseCounts k ∧
        lookup (runOps s ops).ResponseCounts k ≤
          lookup (runOps s ops).TotalResponseCounts k := by
  induction ops with
  | nil => intro s h; exact h
  | cons op rest ih =>
    intro s h
    refine ih (applyOp s op) ?_
    intro k
    obtain ⟨h0, hle⟩ := h k
    cases op with
    | req r =>
      rw [show applyOp s (.req r) = applyReq s r from rfl, applyReq_eq]
      have hrc : (EndWithStatus s r.now r.start r.status).ResponseCounts =
          incr s.ResponseCounts (intKey r.status) := rfl
      have htc : (EndWithStatus s r.now r.start r.status).TotalResponseCounts =
          incr s.TotalResponseCounts (intKey r.status) := rfl
      rw [hrc, htc, lookup_incr, lookup_incr]
      by_cases hq : intKey r.status = k
      · rw [if_pos hq]; omega
      · rw [if_neg hq]; omega
    | reset =>
      have hrc : (applyOp s .reset).ResponseCounts = [] := rfl
      have htc : (applyOp s .reset).TotalResponseCounts =
          s.TotalResponseCounts := rfl
      rw [hrc, htc, lookup_nil]
      omega

/-! ## Claim theorems -/

/-- C1: starting from a fresh recorder, after any finite sequence of N
completed requests (each recorded via `EndWithStatus` or `End`), the snapshot
reports `TotalCount = N`, and for every status code `c` the total map holds, at
the key rendering `c`, exactly the number of requests whose status was `c`. -/
theorem c1_total_counts (reqs : List Req) (now0 pid now c : Int) :
    (data (runReqs (new now0 pid) reqs) now).2.TotalCount = (reqs.length : Int) ∧
    lookup (data (runReqs (new now0 pid) reqs) now).2.TotalStatusCodeCount
      (intKey c) = ((reqs.map Req.status).count c : Int) := by
  have hnodup : (keys (runReqs (new now0 pid) reqs).TotalResponseCounts).Nodup :=
    runReqs_total_nodup reqs (new now0 pid) (by simp [new, keys])
  have hcs := copyAndSum_eq _ hnodup
  constructor
  · show (copyAndSum (runReqs (new now0 pid) reqs).TotalResponseCounts).2 = _
    rw [copyAndSum_snd, runReqs_total_sum]
    show sumVals [] + (reqs.length : Int) = (reqs.length : Int)
    simp [sumVals]
  · show lookup
      (copyAndSum (runReqs (new now0 pid) reqs).TotalResponseCounts).1
      (intKey c) = _
    rw [hcs]
    show lookup (runReqs (new now0 pid) reqs).TotalResponseCounts (intKey c) = _
    rw [runReqs_total_lookup, countKey_intKey]
    show lookup [] (intKey c) + _ = _
    rw [lookup_nil]
    omega

/-- C2: the snapshot's average response duration is the truncating integer
division of the accumulated nanosecond duration by the total count whenever
the total count is positive, and zero when the total count is zero. -/
theorem c2_average (s : Stats) (now : Int) :
    ((data s now).2.TotalCount > 0 →
      (data s now).2.AverageResponseTime =
        Int.tdiv (data s now).2.TotalResponseTime (data s now).2.TotalCount) ∧
    ((data s now).2.TotalCount = 0 → (data s now).2.AverageResponseTime = 0) := by
  constructor
  · intro h
    have h' : (copyAndSum s.TotalResponseCounts).2 > 0 := h
    show (if (copyAndSum s.TotalResponseCounts).2 > 0
        then Int.tdiv (s.TotalResponseTime - 0) (copyAndSum s.TotalResponseCounts).2
        else 0) = _
    rw [if_pos h']
    rfl
  · intro h
    have h' : (copyAndSum s.TotalResponseCounts).2 = 0 := h
    show (if (copyAndSum s.TotalResponseCounts).2 > 0
        then Int.tdiv (s.TotalResponseTime - 0) (copyAndSum s.TotalResponseCounts).2
        else 0) = 0
    rw [if_neg (by omega)]

/-- Witness for C2: one recorded request gives a positive total count and the
truncated average, and a fresh recorder gives total count zero and average
zero. -/
theorem c2_average_witness :
    (data (EndWithStatus (new 0 1) 10 0 200) 20).2.AverageResponseTime =
      Int.tdiv (data (EndWithStatus (new 0 1) 10 0 200) 20).2.TotalResponseTime
        (data (EndWithStatus (new 0 1) 10 0 200) 20).2.TotalCount ∧
    (data (new 0 1) 20).2.AverageResponseTime = 0 :=
  ⟨(c2_average (EndWithStatus (new 0 1) 10 0 200) 20).1 (by decide),
   (c2_average (new 0 1) 20).2 (by decide)⟩

/-- C3: from a fresh recorder, after every sequence of request completions and
interval resets, every key's interval count is at most its total count. -/
theorem c3_interval_le_total (ops : List Op) (now0 pid : Int) (k : String) :
    lookup (runOps (new now0 pid) ops).ResponseCounts k ≤
      lookup (runOps (new now0 pid) ops).TotalResponseCounts k :=
  (runOps_inv ops (new now0 pid)
    (fun _ => ⟨Int.le_refl 0, Int.le_refl 0⟩) k).2

/-- C4: `ResetResponseCounts` empties the interval map and leaves the total
map, the accumulated duration, the start time and the pid unchanged. -/
theorem c4_reset_frame (s : Stats) :
    (ResetResponseCounts s).ResponseCounts = [] ∧
    (ResetResponseCounts s).TotalResponseCounts = s.TotalResponseCounts ∧
    (ResetResponseCounts s).TotalResponseTime = s.TotalResponseTime ∧
    (ResetResponseCounts s).Uptime = s.Uptime ∧
    (ResetResponseCounts s).Pid = s.Pid :=
  ⟨rfl, rfl, rfl, rfl, rfl⟩

/-- C5: `End` has exactly the effect of `EndWithStatus` called with the status
currently stored in the response context. -/
theorem c5_end_eq_endWithStatus (s : Stats) (now start : Int) (ctx : RequestCtx) :
    End s now start ctx = EndWithStatus s now start ctx.statusCode := rfl

/-- C6: from a fresh recorder the accumulated duration equals the sum of all
observed elapsed durations, and any single step with a non-negative elapsed
duration (a reset contributes zero) never decreases it. -/
theorem c6_total_time (ops : List Op) (now0 pid : Int) (op : Op) (s : Stats)
    (h : 0 ≤ elapsed op) :
    (runOps (new now0 pid) ops).TotalResponseTime = sumElapsed ops ∧
    s.TotalResponseTime ≤ (applyOp s op).TotalResponseTime := by
  constructor
  · rw [runOps_time]
    show (0 : Int) + sumElapsed ops = sumElapsed ops
    omega
  · cases op with
    | req r =>
      rw [show applyOp s (.req r) = applyReq s r from rfl, applyReq_eq]
      have h' : (0 : Int) ≤ r.now - r.start := h
      show s.TotalResponseTime ≤ s.TotalResponseTime + (r.now - r.start)
      omega
    | reset =>
      show s.TotalResponseTime ≤ s.TotalResponseTime
      omega

/-- Witness for C6 at a one-request run with elapsed duration 15. -/
theorem c6_total_time_witness :
    (runOps (new 0 1) [Op.req ⟨20, 5, 200, false⟩]).TotalResponseTime =
      sumElapsed [Op.req ⟨20, 5, 200, false⟩] ∧
    (new 0 1).TotalResponseTime ≤
      (applyOp (new 0 1) (Op.req ⟨20, 5, 200, false⟩)).TotalResponseTime :=
  c6_total_time [Op.req ⟨20, 5, 200, false⟩] 0 1 (Op.req ⟨20, 5, 200, false⟩)
    (new 0 1) (by decide)

/-- Three requests with statuses 200, 200, 404 recorded through `Begin`/`End`
on a fresh recorder (for 404 the downstream handler overrides the default). -/
def scenarioA : Stats :=
  let p1 := Begin (new 0 17) 100 { statusCode := 0 }
  let s1 := End p1.1 150 p1.2.1 p1.2.2
  let p2 := Begin s1 200 { statusCode := 0 }
  let s2 := End p2.1 260 p2.2.1 p2.2.2
  let p3 := Begin s2 300 { statusCode := 0 }
  End p3.1 370 p3.2.1 { p3.2.2 with statusCode := 404 }

/-- One reset tick after `scenarioA`, then one more request with status 500. -/
def scenarioB : Stats :=
  let s4 := ResetResponseCounts scenarioA
  let p5 := Begin s4 500 { statusCode := 0 }
  End p5.1 510 p5.2.1 { p5.2.2 with statusCode := 500 }

/-- C7: the two concrete scenarios of the spec: 200, 200, 404 then snapshot;
reset, then 500, then snapshot. -/
theorem c7_scenario :
    (data scenarioA 400).2.Count = 3 ∧
    (data scenarioA 400).2.StatusCodeCount = [("200", 2), ("404", 1)] ∧
    (data scenarioA 400).2.TotalCount = 3 ∧
    (data scenarioB 600).2.StatusCodeCount = [("500", 1)] ∧
    (data scenarioB 600).2.TotalStatusCodeCount =
      [("200", 2), ("404", 1), ("500", 1)] ∧
    (data scenarioB 600).2.TotalCount = 4 := by
  decide

/-- C8: `Begin` returns the captured start time and the given response context
with its status set to 200, and leaves the recorder state untouched. -/
theorem c8_begin (s : Stats) (now : Int) (ctx : RequestCtx) :
    (Begin s now ctx).1 = s ∧
    (Begin s now ctx).2.1 = now ∧
    (Begin s now ctx).2.2 = { ctx with statusCode := 200 } ∧
    (Begin s now ctx).2.2.statusCode = 200 :=
  ⟨rfl, rfl, rfl, rfl⟩

/-- C9: for every integer status (valid HTTP code or not), `EndWithStatus`
bumps both maps by one at the decimal-string key of the status, the key is
present afterwards, and no other key changes. -/
theorem c9_total_any_int (s : Stats) (now start status : Int) :
    lookup (EndWithStatus s now start status).ResponseCounts (intKey status) =
      lookup s.ResponseCounts (intKey status) + 1 ∧
    lookup (EndWithStatus s now start status).TotalResponseCounts (intKey status) =
      lookup s.TotalResponseCounts (intKey status) + 1 ∧
    intKey status ∈ keys (EndWithStatus s now start status).ResponseCounts ∧
    intKey status ∈ keys (EndWithStatus s now start status).TotalResponseCounts ∧
    (∀ q, q ≠ intKey status →
      lookup (EndWithStatus s now start status).ResponseCounts q =
        lookup s.ResponseCounts q ∧
      lookup (EndWithStatus s now start status).TotalResponseCounts q =
        lookup s.TotalResponseCounts q) := by
  refine ⟨?_, ?_, ?_, ?_, ?_⟩
  · rw [show (EndWithStatus s now start status).ResponseCounts =
      incr s.ResponseCounts (intKey status) from rfl, lookup_incr, if_pos rfl]
  · rw [show (EndWithStatus s now start status).TotalResponseCounts =
      incr s.TotalResponseCounts (intKey status) from rfl, lookup_incr, if_pos rfl]
  · rw [show (EndWithStatus s now start status).ResponseCounts =
      incr s.ResponseCounts (intKey status) from rfl, keys_incr]
    split_ifs with h
    · exact h
    · simp
  · rw [show (EndWithStatus s now start status).TotalResponseCounts =
      incr s.TotalResponseCounts (intKey status) from rfl, keys_incr]
    split_ifs with h
    · exact h
    · simp
  · intro q hq
    constructor
    · rw [show (EndWithStatus s now start status).ResponseCounts =
        incr s.ResponseCounts (intKey status) from rfl, lookup_incr,
        if_neg (fun he => hq he.symm)]
      omega
    · rw [show (EndWithStatus s now start status).TotalResponseCounts =
        incr s.TotalResponseCounts (intKey status) from rfl, lookup_incr,
        if_neg (fun he => hq he.symm)]
      omega

/-- Witness for C9 at the negative status -7: the key is its decimal string
and an unrelated key is untouched. -/
theorem c9_total_any_int_witness :
    lookup (EndWithStatus (new 0 1) 10 0 (-7)).ResponseCounts (intKey (-7)) =
      lookup (new 0 1).ResponseCounts (intKey (-7)) + 1 ∧
    lookup (EndWithStatus (new 0 1) 10 0 (-7)).ResponseCounts "200" =
      lookup (new 0 1).ResponseCounts "200" :=
  ⟨(c9_total_any_int (new 0 1) 10 0 (-7)).1,
   ((c9_total_any_int (new 0 1) 10 0 (-7)).2.2.2.2 "200" (by decide)).1⟩

/-- C10: `Data` leaves the recorder unchanged; the maps it returns are copies
whose contents equal the recorder's maps entry for entry, and two successive
snapshots with no intervening mutation report equal counter contents. -/
theorem c10_data_pure (s : Stats) (now now2 : Int)
    (h1 : (keys s.ResponseCounts).Nodup)
    (h2 : (keys s.TotalResponseCounts).Nodup) :
    (data s now).1 = s ∧
    (data s now).2.StatusCodeCount = s.ResponseCounts ∧
    (data s now).2.TotalStatusCodeCount = s.TotalResponseCounts ∧
    (data s now).2.StatusCodeCount = (data s now2).2.StatusCodeCount ∧
    (data s now).2.TotalStatusCodeCount = (data s now2).2.TotalStatusCodeCount ∧
    (data s now).2.Count = (data s now2).2.Count ∧
    (data s now).2.TotalCount = (data s now2).2.TotalCount := by
  have hrc := copyAndSum_eq s.ResponseCounts h1
  have htc := copyAndSum_eq s.TotalResponseCounts h2
  refine ⟨rfl, ?_, ?_, rfl, rfl, rfl, rfl⟩
  · show (copyAndSum s.ResponseCounts).1 = s.ResponseCounts
    rw [hrc]
  · show (copyAndSum s.TotalResponseCounts).1 = s.TotalResponseCounts
    rw [htc]

/-- Witness for C10 after one recorded request. -/
theorem c10_data_pure_witness :
    (data (EndWithStatus (new 0 1) 10 0 200) 20).1 =
      EndWithStatus (new 0 1) 10 0 200 ∧
    (data (EndWithStatus (new 0 1) 10 0 200) 20).2.StatusCodeCount =
      (EndWithStatus (new 0 1) 10 0 200).ResponseCounts :=
  ⟨(c10_data_pure (EndWithStatus (new 0 1) 10 0 200) 20 30
      (by decide) (by decide)).1,
   (c10_data_pure (EndWithStatus (new 0 1) 10 0 200) 20 30
      (by decide) (by decide)).2.1⟩

end GoStats
